import Mathlib

/-
  Shallow embedding of the wallet-balance logic of the aevr-wallet-api
  repository (src/utils/userWallet/balance.ts, src/services/userWallet.services.ts,
  src/models/userWallet.model.ts).

  Numeric amounts are modelled as rationals (the TypeScript code stores JS
  numbers obtained via parseFloat; the claims are about the accumulation
  structure, which we state over exact arithmetic). The external 100Pay SDK
  calls are modelled as oracles passed in as arguments (an Except value, or a
  function from accountId and symbol to an Except value). The Mongo document
  store is modelled as a list of documents threaded through explicitly.
-/

namespace AevrWallet

/-- One item of the transfer history returned by the external API
(ITransferHistoryItem in the 100pay.js SDK).  Only the fields read by the
balance code are kept: amount (parseFloat of the amount string), status and
type; an id field keeps distinct transactions distinguishable.  The amount is
an exact rational: IEEE-754 double rounding and NaN are outside this model,
so only structural accumulation facts are stated over it, not exact
cross-field arithmetic identities of the running program. -/
structure ITransferHistoryItem where
  id : String
  amount : ℚ
  status : String
  type : String
deriving Repr, DecidableEq

/-- Balance calculation result (src/types/userWallet/balance.ts, BalanceResult).
The optional transactions field is modelled as a plain list: every producer in
the code supplies it (processTransactions always builds it, the error default
uses []). -/
@[ext]
structure BalanceResult where
  totalBalance : ℚ
  availableBalance : ℚ
  pendingCredits : ℚ
  pendingDebits : ℚ
  transactions : List ITransferHistoryItem
deriving Repr, DecidableEq

/-- The all-zero BalanceResult used as the error default in
calculateMultipleBalances and getWalletBalanceByAccountAddress. -/
def zeroBalance : BalanceResult :=
  { totalBalance := 0
    availableBalance := 0
    pendingCredits := 0
    pendingDebits := 0
    transactions := [] }

/-- The four mutable accumulators of the processTransactions loop
(balance.ts lines 207-210). -/
@[ext]
structure Acc where
  totalBalance : ℚ
  availableBalance : ℚ
  pendingCredits : ℚ
  pendingDebits : ℚ
deriving Repr, DecidableEq

/-- The initial accumulator state: all four fields start at 0. -/
def initAcc : Acc :=
  { totalBalance := 0, availableBalance := 0, pendingCredits := 0, pendingDebits := 0 }

/-- One iteration of the for-loop of processTransactions
(balance.ts lines 212-235), acting on the accumulator state. -/
def processStep (a : Acc) (tx : ITransferHistoryItem) : Acc :=
  let amount := tx.amount
  if tx.status = "failed" then a
  else if tx.type = "credit" then
    if tx.status = "successful" then
      { a with totalBalance := a.totalBalance + amount
               availableBalance := a.availableBalance + amount }
    else if tx.status = "pending" then
      { a with totalBalance := a.totalBalance + amount
               pendingCredits := a.pendingCredits + amount }
    else a
  else if tx.type = "debit" then
    if tx.status = "successful" then
      { a with totalBalance := a.totalBalance - amount
               availableBalance := a.availableBalance - amount }
    else if tx.status = "pending" then
      { a with totalBalance := a.totalBalance - amount
               pendingDebits := a.pendingDebits + amount }
    else a
  else a

/-- The accumulator produced by running the processTransactions loop over the
whole list. -/
def balanceAcc (transactions : List ITransferHistoryItem) : Acc :=
  transactions.foldl processStep initAcc

/-- WalletBalanceUtil.processTransactions (balance.ts lines 203-244):
runs the loop and packages the result, echoing the input list back only when
returnTransactions is true. -/
def processTransactions (transactions : List ITransferHistoryItem)
    (returnTransactions : Bool) : BalanceResult :=
  let acc := balanceAcc transactions
  { totalBalance := acc.totalBalance
    availableBalance := acc.availableBalance
    pendingCredits := acc.pendingCredits
    pendingDebits := acc.pendingDebits
    transactions := if returnTransactions then transactions else [] }

/-- WalletBalanceUtil.mapTransactionStatus (balance.ts lines 177-183). -/
def mapTransactionStatus (status : String) : String :=
  if status = "completed" then "successful"
  else if status = "pending" then "pending"
  else "failed"

/-- WalletBalanceUtil.mapTransactionType (balance.ts lines 188-195). -/
def mapTransactionType (type : String) (_from : String) (_to : String) : String :=
  if type = "credit" then "credit" else "debit"

/-- The four numeric fields of a BalanceResult as a quadruple, for stating
claims about the balances independently of the transactions list. -/
def balanceFields (b : BalanceResult) : ℚ × ℚ × ℚ × ℚ :=
  (b.totalBalance, b.availableBalance, b.pendingCredits, b.pendingDebits)

/-- WalletBalanceUtil.calculateBalance (balance.ts lines 31-65).  The external
transfer-history fetch (client.transfer.getHistory) is an oracle: either the
fetched data or an error message.  On failure the catch block rethrows with
the "Balance calculation failed: " prefix; on success the fetched data is
processed.  processTransactions is total, so it is the only success path. -/
def calculateBalance (fetch : Except String (List ITransferHistoryItem))
    (returnTransactions : Bool) : Except String BalanceResult :=
  match fetch with
  | Except.ok historyData => Except.ok (processTransactions historyData returnTransactions)
  | Except.error e => Except.error ("Balance calculation failed: " ++ e)

/-- One element of the walletInfos argument of calculateMultipleBalances. -/
structure WalletInfo where
  accountId : String
  symbol : String
deriving Repr, DecidableEq

/-- A JS plain-object record keyed by account id, as an association list in
insertion order (Object.values and Object.keys enumerate string keys in
insertion order). -/
abbrev BalanceRecord := List (String × BalanceResult)

/-- JS object assignment balances[k] = v: overwrite the existing entry for k
in place, or append a new entry.  The record is only ever built from the empty
object by such assignments, so keys never repeat and overwriting the first
occurrence is exact. -/
def recordSet : BalanceRecord → String → BalanceResult → BalanceRecord
  | [], k, v => [(k, v)]
  | p :: rest, k, v =>
      if p.1 = k then (k, v) :: rest else p :: recordSet rest k v

/-- The body of the map callback in calculateMultipleBalances
(balance.ts lines 150-168): the balance for one wallet info, with the
all-zero default when the calculation failed.  calculateBalance is called
without returnTransactions, i.e. with false. -/
def balanceEntry (fetch : String → String → Except String (List ITransferHistoryItem))
    (info : WalletInfo) : BalanceResult :=
  match calculateBalance (fetch info.accountId info.symbol) false with
  | Except.ok balance => balance
  | Except.error _ => zeroBalance

/-- WalletBalanceUtil.calculateMultipleBalances (balance.ts lines 144-172).
The concurrent fan-out is modelled as one serialization: the assignments to
the shared record happen in list order.  Each callback catches its own
failure, so the whole batch never rejects.  cmbStep is the assignment one
callback performs on the shared record. -/
def cmbStep (fetch : String → String → Except String (List ITransferHistoryItem))
    (balances : BalanceRecord) (info : WalletInfo) : BalanceRecord :=
  recordSet balances info.accountId (balanceEntry fetch info)

/-- Folding the per-wallet callback over the walletInfos list from the empty
record. -/
def calculateMultipleBalances
    (fetch : String → String → Except String (List ITransferHistoryItem))
    (walletInfos : List WalletInfo) : BalanceRecord :=
  walletInfos.foldl (cmbStep fetch) []

/-- The reduce over Object.values(balances) in
WalletService.getWalletBalanceByAccountAddress
(userWallet.services.ts lines 431-447): componentwise sum of the numeric
fields and concatenation of the transaction lists.  aggStep is the reducer
body applied to the running aggregate and one record entry. -/
def aggStep (acc : BalanceResult) (p : String × BalanceResult) : BalanceResult :=
  { totalBalance := acc.totalBalance + p.2.totalBalance
    availableBalance := acc.availableBalance + p.2.availableBalance
    pendingCredits := acc.pendingCredits + p.2.pendingCredits
    pendingDebits := acc.pendingDebits + p.2.pendingDebits
    transactions := acc.transactions ++ p.2.transactions }

/-- Folding the reduce body over the record values, starting from the
all-zero BalanceResult. -/
def aggregateBalances (balances : BalanceRecord) : BalanceResult :=
  balances.foldl aggStep zeroBalance

/-- The nested account details of a wallet (address, key, network), as in the
100Pay Account payload and the userWallet Mongoose schema. -/
structure AccountDetails where
  address : String
  key : String
  network : String
deriving Repr, DecidableEq

/-- An external 100Pay account as returned by client.subaccounts.create.
Only the fields saveWalletToDb reads are kept; sourceId models the _id field
of the API payload. -/
structure Account where
  sourceId : String
  accountType : String
  walletType : String
  status : String
  name : String
  symbol : String
  decimals : String
  account : AccountDetails
  logo : String
  userId : String
  appId : String
  network : String
  ownerId : String
  parentWallet : String
deriving Repr, DecidableEq

/-- A persisted UserWallet mirror document
(src/models/userWallet.model.ts schema, userWallet.services.ts walletData). -/
structure UserWalletDoc where
  user : String
  accountType : String
  walletType : String
  status : String
  name : String
  symbol : String
  decimals : String
  account : AccountDetails
  logo : String
  userId : String
  appId : String
  network : String
  ownerId : String
  parentWallet : String
  sourceAccountId : String
deriving Repr, DecidableEq

/-- The walletData object built by WalletService.saveWalletToDb
(userWallet.services.ts lines 124-145): the mirror document for one external
account; sourceAccountId stores the original 100Pay account id (_id). -/
def mkWalletData (userId : String) (account : Account) : UserWalletDoc :=
  { user := userId
    accountType := account.accountType
    walletType := account.walletType
    status := account.status
    name := account.name
    symbol := account.symbol
    decimals := account.decimals
    account :=
      { address := account.account.address
        key := account.account.key
        network := account.account.network }
    logo := account.logo
    userId := account.userId
    appId := account.appId
    network := account.network
    ownerId := account.ownerId
    parentWallet := account.parentWallet
    sourceAccountId := account.sourceId }

/-- WalletService.saveWalletToDb (userWallet.services.ts lines 120-149):
persists the mirror document into the store and returns the saved document.
Mongoose save appends the new document; populate enriches the in-memory copy
but does not change the persisted fields. -/
def saveWalletToDb (store : List UserWalletDoc) (userId : String)
    (account : Account) : List UserWalletDoc × UserWalletDoc :=
  let wallet := mkWalletData userId account
  (store ++ [wallet], wallet)

/-- The success path of WalletService.createUserWallets
(userWallet.services.ts lines 96-104): after the external subaccount creation
returned its accounts, save each account to the store (Promise.all keeps the
result array in input order) and return the saved documents. -/
def createUserWallets (store : List UserWalletDoc) (userId : String)
    (accounts : List Account) : List UserWalletDoc × List UserWalletDoc :=
  accounts.foldl
    (fun st account =>
      ((saveWalletToDb st.1 userId account).1,
        st.2 ++ [(saveWalletToDb st.1 userId account).2]))
    (store, [])

/-- WalletService.getWalletBalanceByAccountAddress
(userWallet.services.ts lines 411-460).  getUserWalletByAccountAddress is the
store query for wallets whose account.address is among the given addresses;
an empty result throws, and the surrounding catch turns any failure into the
all-zero BalanceResult. -/
def getWalletBalanceByAccountAddress (store : List UserWalletDoc)
    (fetch : String → String → Except String (List ITransferHistoryItem))
    (addresses : List String) : BalanceResult :=
  let wallets := store.filter (fun w => addresses.contains w.account.address)
  if wallets.isEmpty then zeroBalance
  else
    aggregateBalances
      (calculateMultipleBalances fetch
        (wallets.map (fun w => { accountId := w.sourceAccountId, symbol := w.symbol })))

/-- The WalletBalanceUtil class (balance.ts lines 13-22): its only state is
the SDK client it was constructed with, of an abstract client type. -/
structure WalletBalanceUtil (Client : Type) where
  client : Client

/-- processTransactions as the instance method it is in the source: its body
reads none of the instance state, so it delegates to the pure function. -/
def WalletBalanceUtil.processTransactions {Client : Type}
    (_self : WalletBalanceUtil Client) (transactions : List ITransferHistoryItem)
    (returnTransactions : Bool) : BalanceResult :=
  AevrWallet.processTransactions transactions returnTransactions

/-- The processTransactions loop written as structural recursion over the
transaction list, one step per element. -/
def processTransactionsLoop : Acc → List ITransferHistoryItem → Acc
  | a, [] => a
  | a, tx :: rest => processTransactionsLoop (processStep a tx) rest

/-- The loop step instrumented with a visit trace: besides updating the
accumulator it records the transaction just visited. -/
def processStepTraced (p : Acc × List ITransferHistoryItem)
    (tx : ITransferHistoryItem) : Acc × List ITransferHistoryItem :=
  (processStep p.1 tx, p.2 ++ [tx])

/-- The sequence of transactions visited by the processTransactions loop, in
visit order. -/
def processTransactionsTrace (transactions : List ITransferHistoryItem) :
    List ITransferHistoryItem :=
  (transactions.foldl processStepTraced (initAcc, [])).2

/-- A fetch oracle that always fails, for evaluating the error paths on
concrete inputs. -/
def fetchFailW : String → String → Except String (List ITransferHistoryItem) :=
  fun _ _ => Except.error "network down"

/-- A fetch oracle that always returns an empty history, for evaluating the
success paths on concrete inputs. -/
def fetchOkW : String → String → Except String (List ITransferHistoryItem) :=
  fun _ _ => Except.ok []

/-- A concrete pending credit transaction for evaluating theorems. -/
def txPendingCreditW : ITransferHistoryItem :=
  { id := "t1", amount := 5, status := "pending", type := "credit" }

/-- A concrete transaction with the raw API status completed, which the
balance loop does not recognize. -/
def txCompletedW : ITransferHistoryItem :=
  { id := "t2", amount := 7, status := "completed", type := "credit" }

/-- A concrete persisted wallet document for evaluating theorems. -/
def walletDocW : UserWalletDoc :=
  { user := "user1"
    accountType := "crypto"
    walletType := "sub"
    status := "active"
    name := "Bitcoin"
    symbol := "BTC"
    decimals := "8"
    account := { address := "addr1", key := "k", network := "BSC" }
    logo := ""
    userId := "pay-user"
    appId := "app"
    network := "BSC"
    ownerId := "owner"
    parentWallet := "parent"
    sourceAccountId := "acc1" }

/-- One loop step from an arbitrary accumulator equals the step from the
initial accumulator shifted by the incoming accumulator, componentwise. -/
lemma processStep_shift (a : Acc) (tx : ITransferHistoryItem) :
    processStep a tx =
      { totalBalance := a.totalBalance + (processStep initAcc tx).totalBalance
        availableBalance := a.availableBalance + (processStep initAcc tx).availableBalance
        pendingCredits := a.pendingCredits + (processStep initAcc tx).pendingCredits
        pendingDebits := a.pendingDebits + (processStep initAcc tx).pendingDebits } := by
  unfold processStep initAcc
  split_ifs <;> ext <;> simp <;> ring

/-- Running the loop from an arbitrary accumulator equals running it from the
initial accumulator shifted by the incoming accumulator, componentwise. -/
lemma foldl_processStep_shift (txs : List ITransferHistoryItem) (a : Acc) :
    txs.foldl processStep a =
      { totalBalance := a.totalBalance + (balanceAcc txs).totalBalance
        availableBalance := a.availableBalance + (balanceAcc txs).availableBalance
        pendingCredits := a.pendingCredits + (balanceAcc txs).pendingCredits
        pendingDebits := a.pendingDebits + (balanceAcc txs).pendingDebits } := by
  induction txs generalizing a with
  | nil =>
      ext <;> simp [balanceAcc, initAcc]
  | cons tx rest ih =>
      have hcons : balanceAcc (tx :: rest) = rest.foldl processStep (processStep initAcc tx) := rfl
      simp only [List.foldl_cons]
      rw [ih (processStep a tx), hcons, ih (processStep initAcc tx), processStep_shift a tx]
      ext <;> simp <;> ring

/-- Head decomposition of the loop accumulator: the contribution of the first
transaction adds componentwise to the accumulator of the tail. -/
lemma balanceAcc_cons (tx : ITransferHistoryItem) (txs : List ITransferHistoryItem) :
    balanceAcc (tx :: txs) =
      { totalBalance := (processStep initAcc tx).totalBalance + (balanceAcc txs).totalBalance
        availableBalance := (processStep initAcc tx).availableBalance + (balanceAcc txs).availableBalance
        pendingCredits := (processStep initAcc tx).pendingCredits + (balanceAcc txs).pendingCredits
        pendingDebits := (processStep initAcc tx).pendingDebits + (balanceAcc txs).pendingDebits } := by
  have h : balanceAcc (tx :: txs) = txs.foldl processStep (processStep initAcc tx) := rfl
  rw [h, foldl_processStep_shift]

/-- A transaction whose status is neither successful nor pending leaves the
accumulator untouched (failed transactions are skipped explicitly, every other
unrecognized status falls through all branches). -/
lemma processStep_skip (a : Acc) (tx : ITransferHistoryItem)
    (h1 : tx.status ≠ "successful") (h2 : tx.status ≠ "pending") :
    processStep a tx = a := by
  unfold processStep
  split_ifs <;> simp_all

/-- Transactions whose status is neither successful nor pending can be
filtered out without changing the accumulator. -/
lemma balanceAcc_filter (txs : List ITransferHistoryItem) :
    balanceAcc txs =
      balanceAcc (txs.filter (fun t => t.status == "successful" || t.status == "pending")) := by
  have general : ∀ (l : List ITransferHistoryItem) (a : Acc),
      l.foldl processStep a =
        (l.filter (fun t => t.status == "successful" || t.status == "pending")).foldl
          processStep a := by
    intro l
    induction l with
    | nil => intro a; rfl
    | cons tx rest ih =>
        intro a
        by_cases hk : (tx.status == "successful" || tx.status == "pending") = true
        · simp only [List.filter_cons, hk, if_pos, List.foldl_cons]
          exact ih (processStep a tx)
        · have hs : tx.status ≠ "successful" ∧ tx.status ≠ "pending" := by
            constructor <;> intro he <;> simp [he] at hk
          simp only [List.filter_cons, hk, List.foldl_cons]
          rw [processStep_skip a tx hs.1 hs.2]
          exact ih a
  exact general txs initAcc

/-- After setting key k, looking up k yields the new value. -/
lemma lookup_recordSet_self (r : BalanceRecord) (k : String) (v : BalanceResult) :
    (recordSet r k v).lookup k = some v := by
  induction r with
  | nil => simp [recordSet, List.lookup]
  | cons p rest ih =>
      by_cases h : p.1 = k
      · simp [recordSet, h, List.lookup]
      · have hk : (k == p.1) = false := by
          simp only [beq_eq_false_iff_ne]
          exact fun hh => h hh.symm
        simp [recordSet, h, List.lookup, hk, ih]

/-- Setting key k does not change the lookup of any other key. -/
lemma lookup_recordSet_ne (r : BalanceRecord) (k : String) (v : BalanceResult)
    (a : String) (h : a ≠ k) :
    (recordSet r k v).lookup a = r.lookup a := by
  induction r with
  | nil =>
      have hk : (a == k) = false := by
        simp only [beq_eq_false_iff_ne]; exact h
      simp [recordSet, List.lookup, hk]
  | cons p rest ih =>
      by_cases hp : p.1 = k
      · have hk : (a == k) = false := by
          simp only [beq_eq_false_iff_ne]; exact h
        have hp2 : (a == p.1) = false := by
          simp only [beq_eq_false_iff_ne]
          intro hh
          exact h (hh.trans hp)
        simp [recordSet, hp, List.lookup, hk, hp2]
      · simp only [recordSet, if_neg hp]
        by_cases hap : a = p.1
        · simp [List.lookup, hap]
        · have hap2 : (a == p.1) = false := by
            simp only [beq_eq_false_iff_ne]; exact hap
          simp [List.lookup, hap2, ih]

/-- Key membership after a record assignment: the written key joins the keys. -/
lemma mem_keys_recordSet (r : BalanceRecord) (k : String) (v : BalanceResult)
    (a : String) :
    (a ∈ (recordSet r k v).map Prod.fst) ↔ (a = k ∨ a ∈ r.map Prod.fst) := by
  induction r with
  | nil => simp [recordSet]
  | cons p rest ih =>
      by_cases h : p.1 = k
      · subst h
        have hr : recordSet (p :: rest) p.1 v = (p.1, v) :: rest := by
          simp [recordSet]
        rw [hr]
        simp only [List.map_cons, List.mem_cons]
        tauto
      · have hr : recordSet (p :: rest) k v = p :: recordSet rest k v := by
          simp [recordSet, h]
        rw [hr]
        simp only [List.map_cons, List.mem_cons, ih]
        tauto

/-- Record assignment keeps the keys duplicate-free. -/
lemma nodup_keys_recordSet (r : BalanceRecord) (k : String) (v : BalanceResult)
    (h : (r.map Prod.fst).Nodup) :
    ((recordSet r k v).map Prod.fst).Nodup := by
  induction r with
  | nil => simp [recordSet]
  | cons p rest ih =>
      by_cases hp : p.1 = k
      · subst hp
        simp only [recordSet, if_pos rfl, List.map_cons]
        simpa using h
      · simp only [recordSet, if_neg hp, List.map_cons] at h ⊢
        rcases List.nodup_cons.mp h with ⟨hnot, hrest⟩
        refine List.nodup_cons.mpr ⟨?_, ih hrest⟩
        intro hm
        rcases (mem_keys_recordSet rest k v p.1).mp hm with h1 | h1
        · exact hp h1
        · exact hnot h1

/-- Lookup after the whole fan-out: the entry for a is the one written by the
last wallet info whose accountId is a, and keys never written keep their
incoming value. -/
lemma lookup_foldl_cmbStep
    (fetch : String → String → Except String (List ITransferHistoryItem))
    (infos : List WalletInfo) (r : BalanceRecord) (a : String) :
    (infos.foldl (cmbStep fetch) r).lookup a =
      ((infos.filter (fun i => i.accountId == a)).getLast?).elim (r.lookup a)
        (fun i => some (balanceEntry fetch i)) := by
  induction infos using List.reverseRecOn with
  | nil => simp
  | append_singleton xs x ih =>
      rw [List.foldl_append]
      simp only [List.foldl_cons, List.foldl_nil]
      by_cases hx : (x.accountId == a) = true
      · have hxa : x.accountId = a := by simpa using hx
        rw [List.filter_append]
        simp only [List.filter_cons, hx, List.filter_nil]
        rw [cmbStep]
        rw [hxa, lookup_recordSet_self]
        simp
      · have hxa : x.accountId ≠ a := by simpa using hx
        rw [List.filter_append]
        simp only [List.filter_cons, hx, List.filter_nil]
        rw [cmbStep, lookup_recordSet_ne _ _ _ a (fun hh => hxa hh.symm)]
        simpa using ih

/-- Key membership after the whole fan-out. -/
lemma mem_keys_foldl_cmbStep
    (fetch : String → String → Except String (List ITransferHistoryItem))
    (infos : List WalletInfo) (r : BalanceRecord) (a : String) :
    (a ∈ (infos.foldl (cmbStep fetch) r).map Prod.fst) ↔
      ((∃ i ∈ infos, i.accountId = a) ∨ a ∈ r.map Prod.fst) := by
  induction infos generalizing r with
  | nil => simp
  | cons i rest ih =>
      simp only [List.foldl_cons]
      rw [ih]
      simp only [cmbStep, mem_keys_recordSet, List.mem_cons]
      constructor
      · rintro (⟨j, hj, hja⟩ | h | h)
        · exact Or.inl ⟨j, Or.inr hj, hja⟩
        · exact Or.inl ⟨i, Or.inl rfl, h.symm⟩
        · exact Or.inr h
      · rintro (⟨j, hj, hja⟩ | h)
        · rcases hj with hj | hj
          · subst hj
            exact Or.inr (Or.inl hja.symm)
          · exact Or.inl ⟨j, hj, hja⟩
        · exact Or.inr (Or.inr h)

/-- The fan-out keeps the record keys duplicate-free. -/
lemma nodup_keys_foldl_cmbStep
    (fetch : String → String → Except String (List ITransferHistoryItem))
    (infos : List WalletInfo) (r : BalanceRecord)
    (h : (r.map Prod.fst).Nodup) :
    ((infos.foldl (cmbStep fetch) r).map Prod.fst).Nodup := by
  induction infos generalizing r with
  | nil => simpa
  | cons i rest ih =>
      simp only [List.foldl_cons]
      exact ih _ (nodup_keys_recordSet _ _ _ h)

/-- The reduce from any starting aggregate: each numeric field gains the sum
over the record values and the transactions gain the concatenation. -/
lemma foldl_aggStep_fields (balances : BalanceRecord) (acc : BalanceResult) :
    (balances.foldl aggStep acc).totalBalance =
        acc.totalBalance + (balances.map (fun p => p.2.totalBalance)).sum
    ∧ (balances.foldl aggStep acc).availableBalance =
        acc.availableBalance + (balances.map (fun p => p.2.availableBalance)).sum
    ∧ (balances.foldl aggStep acc).pendingCredits =
        acc.pendingCredits + (balances.map (fun p => p.2.pendingCredits)).sum
    ∧ (balances.foldl aggStep acc).pendingDebits =
        acc.pendingDebits + (balances.map (fun p => p.2.pendingDebits)).sum
    ∧ (balances.foldl aggStep acc).transactions =
        acc.transactions ++ (balances.map (fun p => p.2.transactions)).flatten := by
  induction balances generalizing acc with
  | nil => simp
  | cons p rest ih =>
      obtain ⟨h1, h2, h3, h4, h5⟩ := ih (aggStep acc p)
      simp only [List.foldl_cons, List.map_cons, List.sum_cons, List.flatten_cons]
      refine ⟨?_, ?_, ?_, ?_, ?_⟩
      · rw [h1]; simp [aggStep, add_assoc]
      · rw [h2]; simp [aggStep, add_assoc]
      · rw [h3]; simp [aggStep, add_assoc]
      · rw [h4]; simp [aggStep, add_assoc]
      · rw [h5]; simp [aggStep]

/-- Explicit form of the createUserWallets fold: the store is extended with
exactly one mirror document per external account, in order, and the returned
list is exactly those documents. -/
lemma createUserWallets_eq (store : List UserWalletDoc) (userId : String)
    (accounts : List Account) :
    createUserWallets store userId accounts =
      (store ++ accounts.map (mkWalletData userId),
        accounts.map (mkWalletData userId)) := by
  have general : ∀ (l : List Account) (st acc : List UserWalletDoc),
      l.foldl
        (fun s account =>
          ((saveWalletToDb s.1 userId account).1,
            s.2 ++ [(saveWalletToDb s.1 userId account).2]))
        (st, acc)
        = (st ++ l.map (mkWalletData userId), acc ++ l.map (mkWalletData userId)) := by
    intro l
    induction l with
    | nil => intro st acc; simp
    | cons a rest ih =>
        intro st acc
        simp only [List.foldl_cons]
        rw [ih]
        simp [saveWalletToDb, List.append_assoc]
  simpa [createUserWallets] using general accounts store []

@[simp]
lemma processTransactions_totalBalance (l : List ITransferHistoryItem) (r : Bool) :
    (processTransactions l r).totalBalance = (balanceAcc l).totalBalance := rfl

@[simp]
lemma processTransactions_availableBalance (l : List ITransferHistoryItem) (r : Bool) :
    (processTransactions l r).availableBalance = (balanceAcc l).availableBalance := rfl

@[simp]
lemma processTransactions_pendingCredits (l : List ITransferHistoryItem) (r : Bool) :
    (processTransactions l r).pendingCredits = (balanceAcc l).pendingCredits := rfl

@[simp]
lemma processTransactions_pendingDebits (l : List ITransferHistoryItem) (r : Bool) :
    (processTransactions l r).pendingDebits = (balanceAcc l).pendingDebits := rfl

@[simp]
lemma processTransactions_transactions (l : List ITransferHistoryItem) (r : Bool) :
    (processTransactions l r).transactions = (if r then l else []) := rfl

/-- C1: processTransactions is a status- and direction-dependent accumulation
over the transaction list: all four balance fields start at 0, a failed
transaction contributes nothing, a successful credit adds its amount to
totalBalance and availableBalance, a pending credit adds its amount to
totalBalance and pendingCredits, a successful debit subtracts its amount from
totalBalance and availableBalance, and a pending debit subtracts its amount
from totalBalance and adds it to pendingDebits. -/
theorem processTransactions_accumulation
    (tx : ITransferHistoryItem) (txs : List ITransferHistoryItem) (r : Bool) :
    balanceFields (processTransactions [] r) = (0, 0, 0, 0)
    ∧ (tx.status = "failed" →
        balanceFields (processTransactions (tx :: txs) r) =
          balanceFields (processTransactions txs r))
    ∧ (tx.type = "credit" → tx.status = "successful" →
        (processTransactions (tx :: txs) r).totalBalance =
            (processTransactions txs r).totalBalance + tx.amount
        ∧ (processTransactions (tx :: txs) r).availableBalance =
            (processTransactions txs r).availableBalance + tx.amount
        ∧ (processTransactions (tx :: txs) r).pendingCredits =
            (processTransactions txs r).pendingCredits
        ∧ (processTransactions (tx :: txs) r).pendingDebits =
            (processTransactions txs r).pendingDebits)
    ∧ (tx.type = "credit" → tx.status = "pending" →
        (processTransactions (tx :: txs) r).totalBalance =
            (processTransactions txs r).totalBalance + tx.amount
        ∧ (processTransactions (tx :: txs) r).pendingCredits =
            (processTransactions txs r).pendingCredits + tx.amount
        ∧ (processTransactions (tx :: txs) r).availableBalance =
            (processTransactions txs r).availableBalance
        ∧ (processTransactions (tx :: txs) r).pendingDebits =
            (processTransactions txs r).pendingDebits)
    ∧ (tx.type = "debit" → tx.status = "successful" →
        (processTransactions (tx :: txs) r).totalBalance =
            (processTransactions txs r).totalBalance - tx.amount
        ∧ (processTransactions (tx :: txs) r).availableBalance =
            (processTransactions txs r).availableBalance - tx.amount
        ∧ (processTransactions (tx :: txs) r).pendingCredits =
            (processTransactions txs r).pendingCredits
        ∧ (processTransactions (tx :: txs) r).pendingDebits =
            (processTransactions txs r).pendingDebits)
    ∧ (tx.type = "debit" → tx.status = "pending" →
        (processTransactions (tx :: txs) r).totalBalance =
            (processTransactions txs r).totalBalance - tx.amount
        ∧ (processTransactions (tx :: txs) r).pendingDebits =
            (processTransactions txs r).pendingDebits + tx.amount
        ∧ (processTransactions (tx :: txs) r).availableBalance =
            (processTransactions txs r).availableBalance
        ∧ (processTransactions (tx :: txs) r).pendingCredits =
            (processTransactions txs r).pendingCredits) := by
  refine ⟨?_, ?_, ?_, ?_, ?_, ?_⟩
  · rfl
  · intro h
    have hstep : processStep initAcc tx = initAcc := by
      unfold processStep
      simp [h]
    have hcons := balanceAcc_cons tx txs
    rw [hstep] at hcons
    simp [balanceFields, hcons, initAcc]
  · intro ht hs
    have hstep : processStep initAcc tx =
        { totalBalance := tx.amount, availableBalance := tx.amount
          pendingCredits := 0, pendingDebits := 0 } := by
      unfold processStep initAcc
      simp [ht, hs]
    refine ⟨?_, ?_, ?_, ?_⟩ <;>
      · simp only [processTransactions_totalBalance, processTransactions_availableBalance,
          processTransactions_pendingCredits, processTransactions_pendingDebits,
          balanceAcc_cons tx txs, hstep]
        ring
  · intro ht hs
    have hstep : processStep initAcc tx =
        { totalBalance := tx.amount, availableBalance := 0
          pendingCredits := tx.amount, pendingDebits := 0 } := by
      unfold processStep initAcc
      simp [ht, hs]
    refine ⟨?_, ?_, ?_, ?_⟩ <;>
      · simp only [processTransactions_totalBalance, processTransactions_availableBalance,
          processTransactions_pendingCredits, processTransactions_pendingDebits,
          balanceAcc_cons tx txs, hstep]
        ring
  · intro ht hs
    have hstep : processStep initAcc tx =
        { totalBalance := -tx.amount, availableBalance := -tx.amount
          pendingCredits := 0, pendingDebits := 0 } := by
      unfold processStep initAcc
      simp [ht, hs]
    refine ⟨?_, ?_, ?_, ?_⟩ <;>
      · simp only [processTransactions_totalBalance, processTransactions_availableBalance,
          processTransactions_pendingCredits, processTransactions_pendingDebits,
          balanceAcc_cons tx txs, hstep]
        ring
  · intro ht hs
    have hstep : processStep initAcc tx =
        { totalBalance := -tx.amount, availableBalance := 0
          pendingCredits := 0, pendingDebits := tx.amount } := by
      unfold processStep initAcc
      simp [ht, hs]
    refine ⟨?_, ?_, ?_, ?_⟩ <;>
      · simp only [processTransactions_totalBalance, processTransactions_availableBalance,
          processTransactions_pendingCredits, processTransactions_pendingDebits,
          balanceAcc_cons tx txs, hstep]
        ring

/-- Witness for C1: the accumulation equations evaluated on a concrete
pending credit of amount 5 in front of the empty list. -/
theorem processTransactions_accumulation_witness :
    (processTransactions [txPendingCreditW] true).totalBalance =
        (processTransactions [] true).totalBalance + txPendingCreditW.amount
    ∧ (processTransactions [txPendingCreditW] true).pendingCredits =
        (processTransactions [] true).pendingCredits + txPendingCreditW.amount
    ∧ (processTransactions [txPendingCreditW] true).availableBalance =
        (processTransactions [] true).availableBalance
    ∧ (processTransactions [txPendingCreditW] true).pendingDebits =
        (processTransactions [] true).pendingDebits :=
  (processTransactions_accumulation txPendingCreditW [] true).2.2.2.1 rfl rfl

/-- C4: a transaction whose status is none of successful, pending and failed
(in particular the raw API status completed, which mapTransactionStatus would
translate to successful but which processTransactions never consults) leaves
all four balance fields unchanged; equivalently, the four balance fields over
any list equal those over its sublist of successful and pending transactions. -/
theorem processTransactions_unrecognized_status
    (tx : ITransferHistoryItem) (txs : List ITransferHistoryItem) (r : Bool) :
    mapTransactionStatus "completed" = "successful"
    ∧ (tx.status ≠ "successful" → tx.status ≠ "pending" → tx.status ≠ "failed" →
        balanceFields (processTransactions (tx :: txs) r) =
          balanceFields (processTransactions txs r))
    ∧ balanceFields (processTransactions txs r) =
        balanceFields (processTransactions
          (txs.filter (fun t => t.status == "successful" || t.status == "pending")) r) := by
  refine ⟨rfl, ?_, ?_⟩
  · intro h1 h2 _
    have hstep : processStep initAcc tx = initAcc := processStep_skip initAcc tx h1 h2
    have hcons := balanceAcc_cons tx txs
    rw [hstep] at hcons
    simp [balanceFields, hcons, initAcc]
  · simp only [balanceFields, processTransactions_totalBalance,
      processTransactions_availableBalance, processTransactions_pendingCredits,
      processTransactions_pendingDebits]
    rw [← balanceAcc_filter]

/-- Witness for C4: a completed credit of amount 7 changes none of the four
balance fields. -/
theorem processTransactions_unrecognized_status_witness :
    balanceFields (processTransactions [txCompletedW] true) =
      balanceFields (processTransactions [] true) :=
  (processTransactions_unrecognized_status txCompletedW [] true).2.1
    (by decide) (by decide) (by decide)

/-- C7: processTransactions is a pure, deterministic reduction: its result is
the same for any two WalletBalanceUtil instances (any SDK client, any client
type) and any two equal argument pairs, with no dependence on other state or
previous calls. -/
theorem processTransactions_deterministic {Client1 Client2 : Type}
    (u1 : WalletBalanceUtil Client1) (u2 : WalletBalanceUtil Client2)
    (txs1 txs2 : List ITransferHistoryItem) (r1 r2 : Bool)
    (htxs : txs1 = txs2) (hr : r1 = r2) :
    u1.processTransactions txs1 r1 = u2.processTransactions txs2 r2 := by
  subst htxs
  subst hr
  rfl

/-- Witness for C7: two utils holding different clients of different types
agree on a concrete input. -/
theorem processTransactions_deterministic_witness :
    (WalletBalanceUtil.mk (0 : ℕ)).processTransactions [txPendingCreditW] true
      = (WalletBalanceUtil.mk "other client").processTransactions [txPendingCreditW] true :=
  processTransactions_deterministic (WalletBalanceUtil.mk (0 : ℕ))
    (WalletBalanceUtil.mk "other client") [txPendingCreditW] [txPendingCreditW]
    true true rfl rfl

/-- Folding the traced step threads the accumulator unchanged and appends the
visited transactions in order. -/
lemma foldl_processStepTraced (txs : List ITransferHistoryItem) (a : Acc)
    (t : List ITransferHistoryItem) :
    txs.foldl processStepTraced (a, t) = (txs.foldl processStep a, t ++ txs) := by
  induction txs generalizing a t with
  | nil => simp
  | cons tx rest ih =>
      simp only [List.foldl_cons, processStepTraced]
      rw [ih]
      simp

/-- The structurally recursive loop computes the same accumulator as the fold. -/
lemma processTransactionsLoop_eq_foldl (txs : List ITransferHistoryItem) (a : Acc) :
    processTransactionsLoop a txs = txs.foldl processStep a := by
  induction txs generalizing a with
  | nil => rfl
  | cons tx rest ih =>
      simp only [processTransactionsLoop, List.foldl_cons]
      exact ih _

/-- C8: processTransactions terminates on every finite list (it is a total
function of a structural recursion over the list) and its loop visits each
transaction exactly once, in list order: the visit trace equals the input
list, and the result is computed by the structurally recursive loop. -/
theorem processTransactions_single_pass
    (txs : List ITransferHistoryItem) (r : Bool) :
    processTransactionsTrace txs = txs
    ∧ (txs.foldl processStepTraced (initAcc, [])).1 = balanceAcc txs
    ∧ balanceAcc txs = processTransactionsLoop initAcc txs
    ∧ processTransactions txs r =
        { totalBalance := (processTransactionsLoop initAcc txs).totalBalance
          availableBalance := (processTransactionsLoop initAcc txs).availableBalance
          pendingCredits := (processTransactionsLoop initAcc txs).pendingCredits
          pendingDebits := (processTransactionsLoop initAcc txs).pendingDebits
          transactions := if r then txs else [] } := by
  have htrace := foldl_processStepTraced txs initAcc []
  have hloop := processTransactionsLoop_eq_foldl txs initAcc
  refine ⟨?_, ?_, ?_, ?_⟩
  · unfold processTransactionsTrace
    rw [htrace]
    simp
  · rw [htrace]
    rfl
  · rw [hloop]
    rfl
  · have hb : balanceAcc txs = txs.foldl processStep initAcc := rfl
    ext <;> simp [hloop, hb]

/-- C6: calculateBalance throws exactly when the external transfer-history
fetch fails, with the message prefixed by "Balance calculation failed: "; on a
successful fetch it returns processTransactions of the fetched data, whose
transactions field is the fetched list when returnTransactions is true and
empty when it is false. -/
theorem calculateBalance_spec
    (fetch : Except String (List ITransferHistoryItem)) (r : Bool) :
    ((∃ e, calculateBalance fetch r = Except.error e) ↔
      ∃ m, fetch = Except.error m)
    ∧ (∀ m, fetch = Except.error m →
        calculateBalance fetch r =
          Except.error ("Balance calculation failed: " ++ m))
    ∧ (∀ data, fetch = Except.ok data →
        calculateBalance fetch r = Except.ok (processTransactions data r)
        ∧ (processTransactions data true).transactions = data
        ∧ (processTransactions data false).transactions = []) := by
  refine ⟨?_, ?_, ?_⟩
  · constructor
    · rintro ⟨e, he⟩
      cases fetch with
      | ok d => simp [calculateBalance] at he
      | error m => exact ⟨m, rfl⟩
    · rintro ⟨m, hm⟩
      subst hm
      exact ⟨_, rfl⟩
  · intro m hm
    subst hm
    rfl
  · intro data hd
    subst hd
    exact ⟨rfl, rfl, rfl⟩

/-- Witness for C6: the error path and the success path evaluated on concrete
fetch results. -/
theorem calculateBalance_spec_witness :
    calculateBalance (Except.error "network down") true =
        Except.error ("Balance calculation failed: " ++ "network down")
    ∧ calculateBalance (Except.ok [txPendingCreditW]) false =
        Except.ok (processTransactions [txPendingCreditW] false)
    ∧ (processTransactions [txPendingCreditW] false).transactions = [] :=
  ⟨(calculateBalance_spec (Except.error "network down") true).2.1 "network down" rfl,
    ((calculateBalance_spec (Except.ok [txPendingCreditW]) false).2.2 [txPendingCreditW] rfl).1,
    ((calculateBalance_spec (Except.ok [txPendingCreditW]) false).2.2 [txPendingCreditW] rfl).2.2⟩

/-- The per-wallet callback yields the all-zero BalanceResult when its fetch
fails. -/
lemma balanceEntry_of_error
    (fetch : String → String → Except String (List ITransferHistoryItem))
    (i : WalletInfo) (m : String)
    (h : fetch i.accountId i.symbol = Except.error m) :
    balanceEntry fetch i = zeroBalance := by
  simp [balanceEntry, calculateBalance, h]

/-- The last element of a list is a member of it. -/
lemma mem_of_getLast_eq_some {α : Type} {l : List α} {x : α}
    (h : l.getLast? = some x) : x ∈ l := by
  obtain ⟨hne, hx⟩ := List.mem_getLast?_eq_getLast (Option.mem_def.mpr h)
  rw [hx]
  exact List.getLast_mem hne

/-- C2: calculateMultipleBalances never rejects; its record has an entry for
every accountId appearing in the input, an account all of whose calculations
failed maps to the all-zero BalanceResult, and the entry for an account is
unaffected by what the fetch returns for other accounts. -/
theorem calculateMultipleBalances_isolation
    (fetch fetch2 : String → String → Except String (List ITransferHistoryItem))
    (infos : List WalletInfo) (a : String) :
    ((∃ i ∈ infos, i.accountId = a) →
        ∃ v, (calculateMultipleBalances fetch infos).lookup a = some v)
    ∧ ((∃ i ∈ infos, i.accountId = a) →
        (∀ i ∈ infos, i.accountId = a →
          ∃ m, fetch i.accountId i.symbol = Except.error m) →
        (calculateMultipleBalances fetch infos).lookup a = some zeroBalance)
    ∧ ((∀ s, fetch a s = fetch2 a s) →
        (calculateMultipleBalances fetch infos).lookup a =
          (calculateMultipleBalances fetch2 infos).lookup a) := by
  refine ⟨?_, ?_, ?_⟩
  · rintro ⟨i, hi, hia⟩
    have hmem : i ∈ infos.filter (fun j => j.accountId == a) :=
      List.mem_filter.mpr ⟨hi, by simp [hia]⟩
    have hne : infos.filter (fun j => j.accountId == a) ≠ [] :=
      List.ne_nil_of_mem hmem
    obtain ⟨j, hj⟩ :
        ∃ j, (infos.filter (fun k => k.accountId == a)).getLast? = some j := by
      cases hfl : (infos.filter (fun k => k.accountId == a)).getLast? with
      | none => exact absurd (List.getLast?_eq_none_iff.mp hfl) hne
      | some j => exact ⟨j, rfl⟩
    rw [calculateMultipleBalances, lookup_foldl_cmbStep, hj]
    exact ⟨balanceEntry fetch j, rfl⟩
  · rintro ⟨i, hi, hia⟩ hfail
    have hmem : i ∈ infos.filter (fun j => j.accountId == a) :=
      List.mem_filter.mpr ⟨hi, by simp [hia]⟩
    have hne : infos.filter (fun j => j.accountId == a) ≠ [] :=
      List.ne_nil_of_mem hmem
    obtain ⟨j, hj⟩ :
        ∃ j, (infos.filter (fun k => k.accountId == a)).getLast? = some j := by
      cases hfl : (infos.filter (fun k => k.accountId == a)).getLast? with
      | none => exact absurd (List.getLast?_eq_none_iff.mp hfl) hne
      | some j => exact ⟨j, rfl⟩
    have hjmem : j ∈ infos.filter (fun k => k.accountId == a) :=
      mem_of_getLast_eq_some hj
    have hjprop := List.mem_filter.mp hjmem
    have hja : j.accountId = a := by simpa using hjprop.2
    obtain ⟨m, hm⟩ := hfail j hjprop.1 hja
    rw [calculateMultipleBalances, lookup_foldl_cmbStep, hj]
    simp [balanceEntry_of_error fetch j m hm]
  · intro hagree
    rw [calculateMultipleBalances, calculateMultipleBalances,
      lookup_foldl_cmbStep, lookup_foldl_cmbStep]
    cases hfl : (infos.filter (fun k => k.accountId == a)).getLast? with
    | none => rfl
    | some j =>
        have hjmem : j ∈ infos.filter (fun k => k.accountId == a) :=
          mem_of_getLast_eq_some hfl
        have hja : j.accountId = a := by
          simpa using (List.mem_filter.mp hjmem).2
        simp only [Option.elim]
        simp [balanceEntry, hja, hagree j.symbol]

/-- Witness for C2: with a fetch that always fails, the single requested
account maps to the all-zero BalanceResult, its entry exists, and the lookup
is unchanged when the oracle is swapped for one that agrees on this account. -/
theorem calculateMultipleBalances_isolation_witness :
    (∃ v, (calculateMultipleBalances fetchFailW
        [{ accountId := "acc1", symbol := "BTC" }]).lookup "acc1" = some v)
    ∧ (calculateMultipleBalances fetchFailW
        [{ accountId := "acc1", symbol := "BTC" }]).lookup "acc1" = some zeroBalance
    ∧ (calculateMultipleBalances fetchFailW
          [{ accountId := "acc1", symbol := "BTC" }]).lookup "acc1" =
        (calculateMultipleBalances fetchFailW
          [{ accountId := "acc1", symbol := "BTC" }]).lookup "acc1" := by
  have h := calculateMultipleBalances_isolation fetchFailW fetchFailW
    [{ accountId := "acc1", symbol := "BTC" }] "acc1"
  refine ⟨?_, ?_, ?_⟩
  · exact h.1 ⟨{ accountId := "acc1", symbol := "BTC" }, by simp, rfl⟩
  · exact h.2.1 ⟨{ accountId := "acc1", symbol := "BTC" }, by simp, rfl⟩
      (fun i _ _ => ⟨"network down", rfl⟩)
  · exact h.2.2 (fun s => rfl)

/-- C10: the record returned by calculateMultipleBalances is keyed by
accountId alone: every accountId appearing in the input owns exactly one
entry (and absent ids own none), and that entry is the balance written by the
last input occurrence of that accountId. -/
theorem calculateMultipleBalances_keyed_by_accountId
    (fetch : String → String → Except String (List ITransferHistoryItem))
    (infos : List WalletInfo) (a : String) :
    ((calculateMultipleBalances fetch infos).map Prod.fst).count a =
        (if ∃ i ∈ infos, i.accountId = a then 1 else 0)
    ∧ (calculateMultipleBalances fetch infos).lookup a =
        ((infos.filter (fun i => i.accountId == a)).getLast?).map
          (fun i => balanceEntry fetch i) := by
  constructor
  · have hnodup : ((calculateMultipleBalances fetch infos).map Prod.fst).Nodup :=
      nodup_keys_foldl_cmbStep fetch infos [] (by simp)
    have hmemiff :
        (a ∈ (calculateMultipleBalances fetch infos).map Prod.fst) ↔
          ∃ i ∈ infos, i.accountId = a := by
      rw [calculateMultipleBalances, mem_keys_foldl_cmbStep]
      simp
    by_cases hmem : ∃ i ∈ infos, i.accountId = a
    · rw [if_pos hmem]
      exact List.count_eq_one_of_mem hnodup (hmemiff.mpr hmem)
    · rw [if_neg hmem]
      exact List.count_eq_zero.mpr (fun hc => hmem (hmemiff.mp hc))
  · rw [calculateMultipleBalances, lookup_foldl_cmbStep]
    cases (infos.filter (fun i => i.accountId == a)).getLast? <;> rfl

/-- C5: when getWalletBalanceByAccountAddress succeeds (some wallet matches
the given addresses), each numeric field of the returned aggregate equals the
sum of that field over the per-account results of calculateMultipleBalances,
its transactions list is the concatenation of the per-account transaction
lists, and the aggregation starts from the all-zero BalanceResult. -/
theorem getWalletBalanceByAccountAddress_aggregates
    (store : List UserWalletDoc)
    (fetch : String → String → Except String (List ITransferHistoryItem))
    (addresses : List String)
    (h : (store.filter (fun w => addresses.contains w.account.address)).isEmpty = false) :
    aggregateBalances [] = zeroBalance
    ∧ (getWalletBalanceByAccountAddress store fetch addresses).totalBalance =
        ((calculateMultipleBalances fetch
            ((store.filter (fun w => addresses.contains w.account.address)).map
              (fun w => { accountId := w.sourceAccountId, symbol := w.symbol }))).map
          (fun p => p.2.totalBalance)).sum
    ∧ (getWalletBalanceByAccountAddress store fetch addresses).availableBalance =
        ((calculateMultipleBalances fetch
            ((store.filter (fun w => addresses.contains w.account.address)).map
              (fun w => { accountId := w.sourceAccountId, symbol := w.symbol }))).map
          (fun p => p.2.availableBalance)).sum
    ∧ (getWalletBalanceByAccountAddress store fetch addresses).pendingCredits =
        ((calculateMultipleBalances fetch
            ((store.filter (fun w => addresses.contains w.account.address)).map
              (fun w => { accountId := w.sourceAccountId, symbol := w.symbol }))).map
          (fun p => p.2.pendingCredits)).sum
    ∧ (getWalletBalanceByAccountAddress store fetch addresses).pendingDebits =
        ((calculateMultipleBalances fetch
            ((store.filter (fun w => addresses.contains w.account.address)).map
              (fun w => { accountId := w.sourceAccountId, symbol := w.symbol }))).map
          (fun p => p.2.pendingDebits)).sum
    ∧ (getWalletBalanceByAccountAddress store fetch addresses).transactions =
        ((calculateMultipleBalances fetch
            ((store.filter (fun w => addresses.contains w.account.address)).map
              (fun w => { accountId := w.sourceAccountId, symbol := w.symbol }))).map
          (fun p => p.2.transactions)).flatten := by
  have hunfold : getWalletBalanceByAccountAddress store fetch addresses =
      aggregateBalances (calculateMultipleBalances fetch
        ((store.filter (fun w => addresses.contains w.account.address)).map
          (fun w => { accountId := w.sourceAccountId, symbol := w.symbol }))) := by
    have hne :
        ¬ ((store.filter (fun w => addresses.contains w.account.address)).isEmpty = true) := by
      rw [h]
      simp
    unfold getWalletBalanceByAccountAddress
    exact if_neg hne
  obtain ⟨h1, h2, h3, h4, h5⟩ := foldl_aggStep_fields
    (calculateMultipleBalances fetch
      ((store.filter (fun w => addresses.contains w.account.address)).map
        (fun w => { accountId := w.sourceAccountId, symbol := w.symbol })))
    zeroBalance
  refine ⟨rfl, ?_, ?_, ?_, ?_, ?_⟩
  · rw [hunfold]
    unfold aggregateBalances
    rw [h1]
    simp [zeroBalance]
  · rw [hunfold]
    unfold aggregateBalances
    rw [h2]
    simp [zeroBalance]
  · rw [hunfold]
    unfold aggregateBalances
    rw [h3]
    simp [zeroBalance]
  · rw [hunfold]
    unfold aggregateBalances
    rw [h4]
    simp [zeroBalance]
  · rw [hunfold]
    unfold aggregateBalances
    rw [h5]
    simp [zeroBalance]

/-- Witness for C5: one stored wallet matching the requested address, with a
fetch that returns an empty history. -/
theorem getWalletBalanceByAccountAddress_aggregates_witness :
    (getWalletBalanceByAccountAddress [walletDocW] fetchOkW ["addr1"]).totalBalance =
        ((calculateMultipleBalances fetchOkW
            (([walletDocW].filter (fun w => ["addr1"].contains w.account.address)).map
              (fun w => { accountId := w.sourceAccountId, symbol := w.symbol }))).map
          (fun p => p.2.totalBalance)).sum
    ∧ (getWalletBalanceByAccountAddress [walletDocW] fetchOkW ["addr1"]).transactions =
        ((calculateMultipleBalances fetchOkW
            (([walletDocW].filter (fun w => ["addr1"].contains w.account.address)).map
              (fun w => { accountId := w.sourceAccountId, symbol := w.symbol }))).map
          (fun p => p.2.transactions)).flatten := by
  have h := getWalletBalanceByAccountAddress_aggregates [walletDocW] fetchOkW
    ["addr1"] (by decide)
  exact ⟨h.2.1, h.2.2.2.2.2⟩

/-- C9: on the success path of createUserWallets, exactly one mirror document
is persisted per external account (the store is extended by exactly the
mapped documents, in order), the returned array is exactly these saved
documents, and each mirror document carries sourceAccountId equal to the
external account id, user equal to the given userId, and symbol, network,
status and account address copied from the external account. -/
theorem createUserWallets_mirrors
    (store : List UserWalletDoc) (userId : String) (accounts : List Account)
    (account : Account) :
    (createUserWallets store userId accounts).1 =
        store ++ accounts.map (mkWalletData userId)
    ∧ (createUserWallets store userId accounts).2 =
        accounts.map (mkWalletData userId)
    ∧ (mkWalletData userId account).sourceAccountId = account.sourceId
    ∧ (mkWalletData userId account).user = userId
    ∧ (mkWalletData userId account).symbol = account.symbol
    ∧ (mkWalletData userId account).network = account.network
    ∧ (mkWalletData userId account).status = account.status
    ∧ (mkWalletData userId account).account.address = account.account.address := by
  have h := createUserWallets_eq store userId accounts
  exact ⟨by rw [h], by rw [h], rfl, rfl, rfl, rfl, rfl, rfl⟩

end AevrWallet
